import Mathlib

/-!
Verification of the batch planning and resumable transfer state tracking
logic of the dataset-manage repository, as a shallow embedding in Lean 4.

The embedding covers:
* `BatchDownloadManager._create_batches` and the pure core of
  `BatchDownloadManager.plan_batch_download` (src/batch_downloader.py);
* `FileTracker.update_file_status` (src/file_tracker.py);
* the reconciliation loop of `DownloadManager._resume_smart_download`
  (src/downloader.py) together with the moved-files strategy of
  `DownloadManager.set_moved_files_strategy`;
* the dispatch/guard prefix of `BatchDownloadManager.execute_batch_download`.

File sizes are natural numbers (the Python code reads them from JSON listings
with `f.get('size', 0)`; all observed values are non-negative byte counts).
The float `safety_margin` (default `0.9`) is idealized as a fraction of
naturals `margin_num / margin_den`; `int()` applied to the non-negative
product is then natural-number division, proved equal to the rational floor
`⌊capacity * margin⌋` in `safeSpace_eq_floor`.  Timestamps are abstract
ticks, and the filesystem under the download directory is a partial map
from filenames to on-disk sizes.
-/

namespace DatasetManage

/-- One entry of the remote file listing, as built by
`DownloadManager._get_file_list`: a dict with keys
`filename`, `url` and `size`. -/
structure FileInfo where
  filename : String
  url : String
  size : Nat
deriving Repr, DecidableEq

/-- One download batch, as built by `BatchDownloadManager._create_batches`:
a dict with keys `files` and `size`, plus an optional `note` key that is
present exactly on the single-file oversize batches. -/
structure Batch where
  files : List FileInfo
  size : Nat
  note : Option String := none
deriving Repr, DecidableEq

/-- The result of `BatchDownloadManager.plan_batch_download`: the
`strategy` and `batches` keys of the returned dict, plus `total_batches`;
the `available_space` / `safe_space` keys are present only in the
multi-batch result. -/
structure Plan where
  strategy : String
  batches : List Batch
  total_batches : Nat
  available_space : Option Nat := none
  safe_space : Option Nat := none
deriving Repr, DecidableEq

/-- Sum of the `size` fields, as computed by
`sum(f.get('size', 0) for f in file_list)`. -/
def totalSizeOf (file_list : List FileInfo) : Nat :=
  (file_list.map (·.size)).sum

/-- Insert a file into a descending-sorted list, after every element of
size ≥ its own.  Folding this over the input realizes Python
`sorted(file_list, key=lambda x: x.get('size', 0), reverse=True)`:
a stable sort, descending by size (stability proved in
`filter_sortBySizeDesc` below). -/
def insertBySizeDesc (f : FileInfo) : List FileInfo → List FileInfo
  | [] => [f]
  | g :: rest => if g.size > f.size then g :: insertBySizeDesc f rest else f :: g :: rest

/-- Stable descending sort by file size, modelling
`sorted(file_list, key=lambda x: x.get('size', 0), reverse=True)` in
`BatchDownloadManager._create_batches`. -/
def sortBySizeDesc : List FileInfo → List FileInfo
  | [] => []
  | f :: rest => insertBySizeDesc f (sortBySizeDesc rest)

/-- The `note` string attached to a single-file oversize batch in
`_create_batches`. -/
def oversizeNote : String := "超大文件单独批次"

/-- The `for file_info in sorted_files` loop of
`BatchDownloadManager._create_batches`, with the accumulated `batches`
list and the open `current_batch` made explicit.  After the loop the
final open batch is appended when non-empty. -/
def createBatchesLoop (max_batch_size : Nat) :
    List FileInfo → List Batch → Batch → List Batch
  | [], batches, current_batch =>
      if current_batch.files.isEmpty then batches else batches ++ [current_batch]
  | file_info :: rest, batches, current_batch =>
      let file_size := file_info.size
      if file_size > max_batch_size then
        let batches := if current_batch.files.isEmpty then batches
                       else batches ++ [current_batch]
        createBatchesLoop max_batch_size rest
          (batches ++ [{ files := [file_info], size := file_size,
                         note := some oversizeNote }])
          { files := [], size := 0 }
      else if current_batch.size + file_size ≤ max_batch_size then
        createBatchesLoop max_batch_size rest batches
          { current_batch with files := current_batch.files ++ [file_info],
                               size := current_batch.size + file_size }
      else
        let batches := if current_batch.files.isEmpty then batches
                       else batches ++ [current_batch]
        createBatchesLoop max_batch_size rest batches
          { files := [file_info], size := file_size }

/-- `BatchDownloadManager._create_batches`. -/
def createBatches (file_list : List FileInfo) (max_batch_size : Nat) : List Batch :=
  createBatchesLoop max_batch_size (sortBySizeDesc file_list) [] { files := [], size := 0 }

/-- `safe_space = int(available_space * safety_margin)` in
`plan_batch_download`.  The float `safety_margin` (default `0.9`) is
idealized as the fraction `margin_num / margin_den`; truncating the
non-negative product with `int` is then exactly this natural-number
division, which agrees with the rational floor
`⌊available_space * (margin_num / margin_den)⌋` (see `safeSpace_eq_floor`). -/
def safeSpace (available_space margin_num margin_den : Nat) : Nat :=
  available_space * margin_num / margin_den

/-- The pure planning core of `BatchDownloadManager.plan_batch_download`,
taking the analyzed `file_list` (with `total_size` its size sum) in place
of the repo analysis step. -/
def planBatchDownload (file_list : List FileInfo) (available_space : Nat)
    (margin_num margin_den : Nat) : Plan :=
  let total_size := totalSizeOf file_list
  let safe_space := safeSpace available_space margin_num margin_den
  if total_size ≤ safe_space then
    { strategy := "single_batch",
      batches := [{ files := file_list, size := total_size }],
      total_batches := 1 }
  else
    let batches := createBatches file_list safe_space
    { strategy := "multi_batch",
      batches := batches,
      total_batches := batches.length,
      available_space := some available_space,
      safe_space := some safe_space }

/-! ## Transfer state store (`FileTracker`) and resume reconciliation -/

/-- One value of the `file_status` dict kept by `FileTracker`, as created by
`FileTracker.initialize_file_list`.  Timestamps (`get_current_timestamp`)
are abstracted as natural-number ticks. -/
structure FileRecord where
  filename : String
  url : String
  expected_size : Nat
  status : String
  downloaded_size : Nat
  actual_size : Nat
  checksum : Option String
  error_message : Option String
  attempts : Nat
  created_at : Nat
  started_at : Option Nat
  completed_at : Option Nat
deriving Repr, DecidableEq

/-- The `file_status` dict of a `FileTracker`: keyed by filename and
insertion-ordered, modelled as an association list.  A Python dict never
holds a key twice, so theorems assume `(m.map Prod.fst).Nodup`. -/
abbrev FileStatusMap := List (String × FileRecord)

/-- First-match lookup, `self.file_status.get(filename)` /
`filename in self.file_status`. -/
def lookupEntry : FileStatusMap → String → Option FileRecord
  | [], _ => none
  | (k, v) :: rest, filename => if k = filename then some v else lookupEntry rest filename

/-- In-place value replacement at a key, keeping the dict order:
`self.file_status[filename] = record`. -/
def setEntry : FileStatusMap → String → FileRecord → FileStatusMap
  | [], _, _ => []
  | (k, v) :: rest, filename, r =>
      if k = filename then (k, r) :: setEntry rest filename r
      else (k, v) :: setEntry rest filename r

/-- The record mutation performed by `FileTracker.update_file_status` once the
record exists: set `status`; stamp `started_at` on the first transition to
`downloading` and `completed_at` on `completed`/`failed`; then apply the
keyword updates (the reconciler only ever passes `actual_size` and
`downloaded_size`, both keys that exist in the record). -/
def applyUpdate (file_info : FileRecord) (status : String) (now : Nat)
    (actual_size downloaded_size : Option Nat) : FileRecord :=
  let file_info := { file_info with status := status }
  let file_info :=
    if status = "downloading" ∧ file_info.started_at = none then
      { file_info with started_at := some now }
    else if status = "completed" ∨ status = "failed" then
      { file_info with completed_at := some now }
    else file_info
  let file_info :=
    match actual_size with
    | some v => { file_info with actual_size := v }
    | none => file_info
  match downloaded_size with
  | some v => { file_info with downloaded_size := v }
  | none => file_info

/-- `FileTracker.update_file_status`: returns `False` leaving the map
untouched when the filename is not tracked, else updates the record in
place and persists (modelled by returning the new map). -/
def updateFileStatus (m : FileStatusMap) (filename status : String) (now : Nat)
    (actual_size downloaded_size : Option Nat) : Bool × FileStatusMap :=
  match lookupEntry m filename with
  | none => (false, m)
  | some file_info =>
      (true, setEntry m filename (applyUpdate file_info status now actual_size downloaded_size))

/-- A `pending_files` entry built by the reconciliation loop of
`DownloadManager._resume_smart_download`:
`{'filename': ..., 'url': ..., 'size': ...}`. -/
structure PendingFile where
  filename : String
  url : String
  size : Nat
deriving Repr, DecidableEq

/-- A `moved_files` entry built by the reconciliation loop: a file tracked
`completed` but absent from the download directory. -/
structure MovedFile where
  filename : String
  url : String
  size : Nat
  completed_at : Option Nat
  actual_size : Nat
deriving Repr, DecidableEq

/-- The mutable state threaded through the reconciliation loop of
`_resume_smart_download`: the tracker's `file_status` map plus the local
`pending_files`, `completed_count` and `moved_files` accumulators. -/
structure ReconcileState where
  file_status : FileStatusMap
  pending_files : List PendingFile
  completed_count : Nat
  moved_files : List MovedFile
deriving Repr, DecidableEq

/-- The filesystem visible to the reconciler under `download_path`:
`disk filename = some n` when `(download_path / filename).exists()` with
`stat().st_size = n`, and `none` when the file is absent. -/
abbrev Disk := String → Option Nat

/-- One iteration of the `for filename, file_info in file_tracker.file_status.items()`
loop of `DownloadManager._resume_smart_download` (the non-HFD path),
with `strategy` the manager's `moved_files_strategy`. -/
def reconcileStep (disk : Disk) (strategy : String) (now : Nat)
    (st : ReconcileState) (filename : String) (file_info : FileRecord) : ReconcileState :=
  let current_status := file_info.status
  match disk filename with
  | some actual_size =>
      let expected_size := file_info.expected_size
      if expected_size = 0 ∨ actual_size = expected_size then
        let fs :=
          if current_status ≠ "completed" then
            (updateFileStatus st.file_status filename "completed" now
              (some actual_size) (some actual_size)).2
          else st.file_status
        { st with file_status := fs, completed_count := st.completed_count + 1 }
      else
        let fs := (updateFileStatus st.file_status filename "pending" now none none).2
        { st with file_status := fs,
                  pending_files :=
                    st.pending_files ++ [⟨filename, file_info.url, expected_size⟩] }
  | none =>
      if current_status = "completed" then
        let moved := st.moved_files ++
          [⟨filename, file_info.url, file_info.expected_size,
            file_info.completed_at, file_info.actual_size⟩]
        if strategy = "redownload" then
          let fs := (updateFileStatus st.file_status filename "pending" now none none).2
          { st with file_status := fs, moved_files := moved,
                    pending_files :=
                      st.pending_files ++ [⟨filename, file_info.url, file_info.expected_size⟩] }
        else
          { st with moved_files := moved, completed_count := st.completed_count + 1 }
      else
        let fs := (updateFileStatus st.file_status filename "pending" now none none).2
        { st with file_status := fs,
                  pending_files :=
                    st.pending_files ++ [⟨filename, file_info.url, file_info.expected_size⟩] }

/-- The reconciliation loop, iterating over the (insertion-ordered) items of
the `file_status` dict.  Updates only ever replace the value under the key
being processed, so iterating over the initial items is faithful to Python's
live-dict iteration. -/
def reconcileLoop (disk : Disk) (strategy : String) (now : Nat) :
    List (String × FileRecord) → ReconcileState → ReconcileState
  | [], st => st
  | (filename, file_info) :: rest, st =>
      reconcileLoop disk strategy now rest (reconcileStep disk strategy now st filename file_info)

/-- The reconciliation pass of `DownloadManager._resume_smart_download`
(non-HFD path): re-derive every tracked file's status from the filesystem,
producing the updated map, the pending work list, the completed count and
the moved-files report. -/
def resumeReconcile (disk : Disk) (strategy : String) (now : Nat)
    (file_status : FileStatusMap) : ReconcileState :=
  reconcileLoop disk strategy now file_status ⟨file_status, [], 0, []⟩

/-- The per-record outcome of one reconciliation step on the record itself
(pure counterpart of the `update_file_status` calls; proved to agree with
the loop in `resumeReconcile_eq`). -/
def reconcileRecord (disk : Disk) (strategy : String) (now : Nat)
    (filename : String) (file_info : FileRecord) : FileRecord :=
  match disk filename with
  | some actual_size =>
      if file_info.expected_size = 0 ∨ actual_size = file_info.expected_size then
        if file_info.status ≠ "completed" then
          applyUpdate file_info "completed" now (some actual_size) (some actual_size)
        else file_info
      else applyUpdate file_info "pending" now none none
  | none =>
      if file_info.status = "completed" then
        if strategy = "redownload" then applyUpdate file_info "pending" now none none
        else file_info
      else applyUpdate file_info "pending" now none none

/-- The `pending_files` entry contributed by one record, if any. -/
def pendingOf (disk : Disk) (strategy : String)
    (filename : String) (file_info : FileRecord) : Option PendingFile :=
  match disk filename with
  | some actual_size =>
      if file_info.expected_size = 0 ∨ actual_size = file_info.expected_size then none
      else some ⟨filename, file_info.url, file_info.expected_size⟩
  | none =>
      if file_info.status = "completed" ∧ strategy ≠ "redownload" then none
      else some ⟨filename, file_info.url, file_info.expected_size⟩

/-- The `moved_files` entry contributed by one record, if any. -/
def movedOf (disk : Disk) (filename : String) (file_info : FileRecord) : Option MovedFile :=
  match disk filename with
  | some _ => none
  | none =>
      if file_info.status = "completed" then
        some ⟨filename, file_info.url, file_info.expected_size,
              file_info.completed_at, file_info.actual_size⟩
      else none

/-- The `completed_count` increment contributed by one record. -/
def completedIncrOf (disk : Disk) (strategy : String)
    (filename : String) (file_info : FileRecord) : Nat :=
  match disk filename with
  | some actual_size =>
      if file_info.expected_size = 0 ∨ actual_size = file_info.expected_size then 1 else 0
  | none =>
      if file_info.status = "completed" ∧ strategy ≠ "redownload" then 1 else 0

/-! ## Batch executor (`execute_batch_download`) -/

/-- The externally observable actions of
`BatchDownloadManager.execute_batch_download`, in the order the code can
perform them: delegating a single-batch plan to `start_download`, probing
capacity (`SystemMonitor.comprehensive_check`) before a batch, creating the
per-batch `FileTracker`, persisting batch progress
(`_save_batch_progress`), and delegating one batch to `_download_batch`. -/
inductive ExecAction where
  | startDownload (task_id : String)
  | capacityCheck (batch_index batch_size : Nat)
  | initTracker (tracker_id : String)
  | saveBatchProgress (task_id : String) (current_batch total_batches batch_size : Nat)
  | downloadBatch (batch_index : Nat)
deriving Repr, DecidableEq

/-- Oracles for the executor's external collaborators: the result of
`DownloadManager.start_download`, whether the system check reports the disk
critical before a given batch, and whether `_download_batch` succeeds on a
given batch. -/
structure ExecEnv where
  start_download_ok : Bool
  disk_critical : Nat → Bool
  download_ok : Nat → Bool

/-- `BatchDownloadManager.execute_batch_download`, with its external side
effects reified as a returned `ExecAction` trace: single-batch plans are
delegated immediately; a starting batch past the total returns `True` with
no action; otherwise the batch is capacity-checked, tracked, persisted and
downloaded, recursing into the next batch when `auto_proceed` is set. -/
def executeBatchDownload (env : ExecEnv) (task_id : String) (plan : Plan)
    (auto_proceed : Bool) (current_batch : Nat) : Bool × List ExecAction :=
  if plan.strategy = "single_batch" then
    (env.start_download_ok, [ExecAction.startDownload task_id])
  else
    if current_batch > plan.total_batches then
      (true, [])
    else
      let batch := plan.batches.getD (current_batch - 1) { files := [], size := 0 }
      if env.disk_critical current_batch then
        (false, [ExecAction.capacityCheck current_batch batch.size])
      else
        let acts := [ExecAction.capacityCheck current_batch batch.size,
          ExecAction.initTracker (task_id ++ "_batch_" ++ toString current_batch),
          ExecAction.saveBatchProgress task_id current_batch plan.total_batches batch.size,
          ExecAction.downloadBatch current_batch]
        if env.download_ok current_batch then
          if current_batch < plan.total_batches then
            if auto_proceed then
              let next := executeBatchDownload env task_id plan auto_proceed (current_batch + 1)
              (next.1, acts ++ next.2)
            else (true, acts)
          else (true, acts)
        else (false, acts)
termination_by plan.total_batches + 1 - current_batch
decreasing_by omega

/-! ## Concrete inputs used by witnesses and counterexamples -/

/-- A tracked record that finished downloading (42 of 42 expected bytes). -/
def movedDemoRecord : FileRecord :=
  ⟨"gone.bin", "http://u/gone.bin", 42, "completed", 42, 42, none, none, 1, 0, some 1, some 2⟩

/-- A reachable tracked record: imported as already `completed` by
`initialize_file_list` (which carries a caller-supplied status) with
`actual_size` never recorded, so it is still 0. -/
def staleCompletedRecord : FileRecord :=
  ⟨"f.bin", "http://u/f.bin", 100, "completed", 0, 0, none, none, 0, 0, none, none⟩

/-- A download directory holding `f.bin` with exactly its expected 100 bytes. -/
def staleDisk : Disk := fun filename => if filename = "f.bin" then some 100 else none

/-- A pending tracked record expecting 100 bytes. -/
def partialRecord : FileRecord :=
  ⟨"part.bin", "http://u/part.bin", 100, "pending", 0, 0, none, none, 0, 0, none, none⟩

/-- A download directory holding a truncated 50-byte `part.bin`. -/
def partialDisk : Disk := fun filename => if filename = "part.bin" then some 50 else none

/-- A tracked record for a file that was never downloaded. -/
def missingPendingRecord : FileRecord :=
  ⟨"todo.bin", "http://u/todo.bin", 7, "pending", 0, 0, none, none, 0, 0, none, none⟩

/-- A two-batch plan used to exercise the executor guard. -/
def demoPlan : Plan :=
  { strategy := "multi_batch",
    batches := [{ files := [⟨"a", "u", 5⟩], size := 5 },
                { files := [⟨"b", "v", 3⟩], size := 3 }],
    total_batches := 2,
    available_space := some 10,
    safe_space := some 9 }

end DatasetManage

namespace DatasetManage

/-! ### Properties of the stable descending sort -/

lemma insertBySizeDesc_perm (f : FileInfo) :
    ∀ l : List FileInfo, (insertBySizeDesc f l).Perm (f :: l) := by
  intro l
  induction l with
  | nil => simp [insertBySizeDesc]
  | cons g rest ih =>
      by_cases hgt : g.size > f.size
      · rw [insertBySizeDesc, if_pos hgt]
        exact (ih.cons g).trans (List.Perm.swap f g rest)
      · rw [insertBySizeDesc, if_neg hgt]

lemma sortBySizeDesc_perm : ∀ l : List FileInfo, (sortBySizeDesc l).Perm l := by
  intro l
  induction l with
  | nil => simp [sortBySizeDesc]
  | cons f rest ih =>
      exact (insertBySizeDesc_perm f (sortBySizeDesc rest)).trans (ih.cons f)

lemma mem_insertBySizeDesc {x f : FileInfo} {l : List FileInfo} :
    x ∈ insertBySizeDesc f l ↔ x = f ∨ x ∈ l := by
  rw [(insertBySizeDesc_perm f l).mem_iff, List.mem_cons]

lemma pairwise_insertBySizeDesc (f : FileInfo) :
    ∀ l : List FileInfo, l.Pairwise (fun a b => b.size ≤ a.size) →
      (insertBySizeDesc f l).Pairwise (fun a b => b.size ≤ a.size) := by
  intro l
  induction l with
  | nil => intro _; simp [insertBySizeDesc]
  | cons g rest ih =>
      intro h
      rw [List.pairwise_cons] at h
      by_cases hgt : g.size > f.size
      · rw [insertBySizeDesc, if_pos hgt]
        refine List.pairwise_cons.2 ⟨?_, ih h.2⟩
        intro x hx
        rcases mem_insertBySizeDesc.1 hx with hxf | hxl
        · exact hxf ▸ Nat.le_of_lt hgt
        · exact h.1 x hxl
      · rw [insertBySizeDesc, if_neg hgt]
        refine List.pairwise_cons.2 ⟨?_, List.pairwise_cons.2 h⟩
        intro x hx
        rcases List.mem_cons.1 hx with hxg | hxl
        · exact hxg ▸ Nat.le_of_not_lt hgt
        · exact Nat.le_trans (h.1 x hxl) (Nat.le_of_not_lt hgt)

lemma sortBySizeDesc_pairwise :
    ∀ l : List FileInfo, (sortBySizeDesc l).Pairwise (fun a b => b.size ≤ a.size) := by
  intro l
  induction l with
  | nil => simp [sortBySizeDesc]
  | cons f rest ih => exact pairwise_insertBySizeDesc f (sortBySizeDesc rest) ih

lemma filter_insertBySizeDesc (s : Nat) (f : FileInfo) :
    ∀ l : List FileInfo,
      (insertBySizeDesc f l).filter (fun g => g.size == s) =
        (f :: l).filter (fun g => g.size == s) := by
  intro l
  induction l with
  | nil => rfl
  | cons g rest ih =>
      by_cases hgt : g.size > f.size
      · rw [insertBySizeDesc, if_pos hgt]
        by_cases hf : f.size = s
        · have hg : ¬ g.size = s := by omega
          simp [List.filter_cons, ih, beq_iff_eq, hf, hg]
        · simp [List.filter_cons, ih, beq_iff_eq, hf]
      · rw [insertBySizeDesc, if_neg hgt]

lemma filter_sortBySizeDesc (s : Nat) :
    ∀ l : List FileInfo,
      (sortBySizeDesc l).filter (fun g => g.size == s) =
        l.filter (fun g => g.size == s) := by
  intro l
  induction l with
  | nil => rfl
  | cons f rest ih =>
      rw [sortBySizeDesc, filter_insertBySizeDesc, List.filter_cons, List.filter_cons, ih]

/-! ### Properties of the batch creation loop -/

lemma createBatchesLoop_flatMap (max_batch_size : Nat) :
    ∀ (rest : List FileInfo) (batches : List Batch) (cur : Batch),
      (createBatchesLoop max_batch_size rest batches cur).flatMap (·.files) =
        batches.flatMap (·.files) ++ cur.files ++ rest := by
  intro rest
  induction rest with
  | nil =>
      intro batches cur
      rw [createBatchesLoop]
      by_cases hcur : cur.files.isEmpty
      · rw [if_pos hcur, List.isEmpty_iff.1 hcur]; simp
      · rw [if_neg hcur]; simp
  | cons f rest ih =>
      intro batches cur
      rw [createBatchesLoop]
      by_cases hover : f.size > max_batch_size
      · rw [if_pos hover]
        by_cases hcur : cur.files.isEmpty
        · rw [if_pos hcur, ih, List.isEmpty_iff.1 hcur]; simp
        · rw [if_neg hcur, ih]; simp
      · rw [if_neg hover]
        by_cases hfit : cur.size + f.size ≤ max_batch_size
        · rw [if_pos hfit, ih]; simp
        · rw [if_neg hfit]
          by_cases hcur : cur.files.isEmpty
          · rw [if_pos hcur, ih, List.isEmpty_iff.1 hcur]; simp
          · rw [if_neg hcur, ih]; simp

lemma createBatchesLoop_size_le (max_batch_size : Nat) :
    ∀ (rest : List FileInfo) (batches : List Batch) (cur : Batch),
      (∀ b ∈ batches, totalSizeOf b.files ≤ max_batch_size ∨ b.files.length = 1) →
      totalSizeOf cur.files ≤ max_batch_size →
      cur.size = totalSizeOf cur.files →
      ∀ b ∈ createBatchesLoop max_batch_size rest batches cur,
        totalSizeOf b.files ≤ max_batch_size ∨ b.files.length = 1 := by
  intro rest
  induction rest with
  | nil =>
      intro batches cur hb hcur _ b hmem
      rw [createBatchesLoop] at hmem
      by_cases hemp : cur.files.isEmpty
      · rw [if_pos hemp] at hmem; exact hb b hmem
      · rw [if_neg hemp] at hmem
        rcases List.mem_append.1 hmem with h | h
        · exact hb b h
        · rcases List.mem_singleton.1 h with rfl
          exact Or.inl hcur
  | cons f rest ih =>
      intro batches cur hb hcur hsize b hmem
      rw [createBatchesLoop] at hmem
      by_cases hover : f.size > max_batch_size
      · rw [if_pos hover] at hmem
        refine ih _ _ ?_ (by simp [totalSizeOf]) (by simp [totalSizeOf]) b hmem
        intro b' hb'
        rcases List.mem_append.1 hb' with h | h
        · by_cases hemp : cur.files.isEmpty
          · rw [if_pos hemp] at h; exact hb b' h
          · rw [if_neg hemp] at h
            rcases List.mem_append.1 h with h2 | h2
            · exact hb b' h2
            · rcases List.mem_singleton.1 h2 with rfl
              exact Or.inl hcur
        · rcases List.mem_singleton.1 h with rfl
          exact Or.inr rfl
      · rw [if_neg hover] at hmem
        by_cases hfit : cur.size + f.size ≤ max_batch_size
        · rw [if_pos hfit] at hmem
          refine ih _ _ hb ?_ ?_ b hmem
          · simp only [totalSizeOf] at hsize ⊢
            simp only [List.map_append, List.map_cons, List.map_nil, List.sum_append,
              List.sum_cons, List.sum_nil]
            omega
          · simp [totalSizeOf, hsize]
        · rw [if_neg hfit] at hmem
          refine ih _ _ ?_ ?_ ?_ b hmem
          · intro b' hb'
            by_cases hemp : cur.files.isEmpty
            · rw [if_pos hemp] at hb'; exact hb b' hb'
            · rw [if_neg hemp] at hb'
              rcases List.mem_append.1 hb' with h | h
              · exact hb b' h
              · rcases List.mem_singleton.1 h with rfl
                exact Or.inl hcur
          · simpa [totalSizeOf] using Nat.le_of_not_lt hover
          · simp [totalSizeOf]

lemma createBatches_flatMap (file_list : List FileInfo) (max_batch_size : Nat) :
    ((createBatches file_list max_batch_size).flatMap (·.files)).Perm file_list := by
  rw [createBatches, createBatchesLoop_flatMap]
  simpa using sortBySizeDesc_perm file_list

lemma createBatches_size_le (file_list : List FileInfo) (max_batch_size : Nat) :
    ∀ b ∈ createBatches file_list max_batch_size,
      totalSizeOf b.files ≤ max_batch_size ∨ b.files.length = 1 := by
  refine createBatchesLoop_size_le max_batch_size _ [] _ (by simp) ?_ ?_
  · simp [totalSizeOf]
  · simp [totalSizeOf]

/-! ### Unfolding lemmas for the planner -/

lemma planBatchDownload_of_le (file_list : List FileInfo)
    (available_space margin_num margin_den : Nat)
    (h : totalSizeOf file_list ≤ safeSpace available_space margin_num margin_den) :
    planBatchDownload file_list available_space margin_num margin_den =
      { strategy := "single_batch",
        batches := [{ files := file_list, size := totalSizeOf file_list }],
        total_batches := 1 } := by
  simp only [planBatchDownload]
  rw [if_pos h]

lemma planBatchDownload_of_gt (file_list : List FileInfo)
    (available_space margin_num margin_den : Nat)
    (h : ¬ totalSizeOf file_list ≤ safeSpace available_space margin_num margin_den) :
    planBatchDownload file_list available_space margin_num margin_den =
      { strategy := "multi_batch",
        batches := createBatches file_list (safeSpace available_space margin_num margin_den),
        total_batches :=
          (createBatches file_list (safeSpace available_space margin_num margin_den)).length,
        available_space := some available_space,
        safe_space := some (safeSpace available_space margin_num margin_den) } := by
  simp only [planBatchDownload]
  rw [if_neg h]

/-- The natural-number division in `safeSpace` is exactly the floor of the
rational product `capacity × (margin_num / margin_den)`. -/
lemma safeSpace_eq_floor (available_space margin_num margin_den : Nat) :
    safeSpace available_space margin_num margin_den =
      ⌊(available_space : ℚ) * ((margin_num : ℚ) / (margin_den : ℚ))⌋₊ := by
  rcases Nat.eq_zero_or_pos margin_den with h0 | _
  · subst h0; simp [safeSpace]
  · have hcast : (available_space : ℚ) * ((margin_num : ℚ) / (margin_den : ℚ)) =
        ((available_space * margin_num : ℕ) : ℚ) / ((margin_den : ℕ) : ℚ) := by
      push_cast; ring
    rw [safeSpace, hcast, Nat.floor_div_nat, Nat.floor_natCast]

/-- C1: for every inventory and capacity budget, the plan partitions the
inventory exactly — the concatenation of the batches' file lists is a
permutation of the inventory (every file in exactly one batch), and every
batch either has total size ≤ `safe_space` or is a single-file (oversize)
batch. -/
theorem planner_partitions_inventory_exactly
    (file_list : List FileInfo) (available_space margin_num margin_den : Nat) :
    (((planBatchDownload file_list available_space margin_num margin_den).batches.flatMap
        (·.files)).Perm file_list) ∧
    ∀ b ∈ (planBatchDownload file_list available_space margin_num margin_den).batches,
      totalSizeOf b.files ≤ safeSpace available_space margin_num margin_den ∨
        b.files.length = 1 := by
  by_cases h : totalSizeOf file_list ≤ safeSpace available_space margin_num margin_den
  · rw [planBatchDownload_of_le file_list available_space margin_num margin_den h]
    constructor
    · simp
    · intro b hb
      rcases List.mem_singleton.1 hb with rfl
      exact Or.inl h
  · rw [planBatchDownload_of_gt file_list available_space margin_num margin_den h]
    exact ⟨createBatches_flatMap file_list _, createBatches_size_le file_list _⟩

/-- C4: the planner's safe capacity is `⌊capacity × safetyMargin⌋` (with the
margin written as the fraction `margin_num / margin_den`), and whenever the
inventory's total size is ≤ that safe capacity the plan is a single batch
containing the entire inventory.  The `witness` theorem instantiates this at
`totalSize = 1000`, `capacity = 2000`, margin `9/10`, where the safe capacity
is `1800` and the strategy is `single_batch`. -/
theorem plan_single_batch_threshold
    (file_list : List FileInfo) (available_space margin_num margin_den : Nat)
    (h : totalSizeOf file_list ≤ safeSpace available_space margin_num margin_den) :
    planBatchDownload file_list available_space margin_num margin_den =
      { strategy := "single_batch",
        batches := [{ files := file_list, size := totalSizeOf file_list }],
        total_batches := 1 } ∧
    safeSpace available_space margin_num margin_den =
      ⌊(available_space : ℚ) * ((margin_num : ℚ) / (margin_den : ℚ))⌋₊ :=
  ⟨planBatchDownload_of_le file_list available_space margin_num margin_den h,
   safeSpace_eq_floor available_space margin_num margin_den⟩

/-- Witness for C4: the spec's concrete instance `totalSize = 1000`,
`capacity = 2000`, `margin = 0.9`, `safeCapacity = 1800`, strategy
`single_batch`. -/
theorem plan_single_batch_threshold_witness :
    totalSizeOf [⟨"data.bin", "u", 1000⟩] ≤ safeSpace 2000 9 10 ∧
    safeSpace 2000 9 10 = 1800 ∧
    (planBatchDownload [⟨"data.bin", "u", 1000⟩] 2000 9 10).strategy = "single_batch" := by
  refine ⟨by decide, by decide, ?_⟩
  rw [(plan_single_batch_threshold [⟨"data.bin", "u", 1000⟩] 2000 9 10 (by decide)).1]

/-- C5: a file of size exactly `safe_space` is not treated as oversize and is
packed normally (no `note`); a file strictly larger than `safe_space` is
emitted as its own single-file oversize batch; and on the spec's concrete
inventory `[5000, 100, 100]` with `safe_space = 1000`, batch 1 is the 5000
file alone (oversize) and batch 2 holds both 100-sized files. -/
theorem oversize_batch_handling (f : FileInfo) (cap : Nat) (h : f.size = cap) :
    createBatches [f] cap = [{ files := [f], size := cap }] ∧
    (∀ g : FileInfo, g.size > cap →
      createBatches [g] cap =
        [{ files := [g], size := g.size, note := some oversizeNote }]) ∧
    createBatches [⟨"a", "ua", 5000⟩, ⟨"b", "ub", 100⟩, ⟨"c", "uc", 100⟩] 1000 =
      [{ files := [⟨"a", "ua", 5000⟩], size := 5000, note := some oversizeNote },
       { files := [⟨"b", "ub", 100⟩, ⟨"c", "uc", 100⟩], size := 200 }] := by
  refine ⟨?_, ?_, by decide⟩
  · subst h
    simp [createBatches, sortBySizeDesc, insertBySizeDesc, createBatchesLoop]
  · intro g hg
    simp [createBatches, sortBySizeDesc, insertBySizeDesc, createBatchesLoop, hg]

/-- Witness for C5: a single file of size exactly 1000 with capacity 1000 is
packed as a normal (non-oversize) batch. -/
theorem oversize_batch_handling_witness :
    (⟨"x", "u", 1000⟩ : FileInfo).size = 1000 ∧
    createBatches [⟨"x", "u", 1000⟩] 1000 = [{ files := [⟨"x", "u", 1000⟩], size := 1000 }] :=
  ⟨rfl, (oversize_batch_handling ⟨"x", "u", 1000⟩ 1000 rfl).1⟩

/-- C7: the planner is a pure function — two calls on identical input yield
identical plans — and the underlying sort is a stable descending sort by
size: the output is descending, and the files of any fixed size appear in
their original listing order. -/
theorem planner_deterministic_and_stable
    (file_list : List FileInfo) (available_space margin_num margin_den s : Nat) :
    planBatchDownload file_list available_space margin_num margin_den =
      planBatchDownload file_list available_space margin_num margin_den ∧
    (sortBySizeDesc file_list).Pairwise (fun a b => b.size ≤ a.size) ∧
    (sortBySizeDesc file_list).filter (fun g => g.size == s) =
      file_list.filter (fun g => g.size == s) :=
  ⟨rfl, sortBySizeDesc_pairwise file_list, filter_sortBySizeDesc s file_list⟩

/-- Counterexample for C9: on an empty inventory the planner does NOT return
zero batches — it returns strategy `single_batch` with exactly one batch
(which contains zero files). -/
theorem plan_empty_inventory_counterexample :
    (planBatchDownload [] 2000 9 10).strategy = "single_batch" ∧
    (planBatchDownload [] 2000 9 10).batches.length ≠ 0 := by
  constructor <;> decide

/-- C9 (amended): for an empty inventory the planner returns strategy
`single_batch` with exactly one batch containing zero files and size 0. -/
theorem plan_empty_inventory (available_space margin_num margin_den : Nat) :
    planBatchDownload [] available_space margin_num margin_den =
      { strategy := "single_batch", batches := [{ files := [], size := 0 }],
        total_batches := 1 } := by
  simpa [totalSizeOf] using
    planBatchDownload_of_le [] available_space margin_num margin_den
      (by simp [totalSizeOf])

/-! ### Association-list lemmas for the state store -/

lemma setEntry_keys (m : FileStatusMap) (filename : String) (r : FileRecord) :
    (setEntry m filename r).map Prod.fst = m.map Prod.fst := by
  induction m with
  | nil => rfl
  | cons e rest ih =>
      obtain ⟨k, v⟩ := e
      by_cases h : k = filename <;> simp [setEntry, h, ih]

lemma setEntry_of_not_mem (m : FileStatusMap) (filename : String) (r : FileRecord)
    (h : filename ∉ m.map Prod.fst) : setEntry m filename r = m := by
  induction m with
  | nil => rfl
  | cons e rest ih =>
      obtain ⟨k, v⟩ := e
      have h1 : ¬ k = filename := by
        intro hk; exact h (by simp [hk])
      have h2 : filename ∉ rest.map Prod.fst := by
        intro hm; exact h (by simp [hm])
      simp [setEntry, h1, ih h2]

lemma setEntry_append (m₁ m₂ : FileStatusMap) (filename : String) (r : FileRecord) :
    setEntry (m₁ ++ m₂) filename r = setEntry m₁ filename r ++ setEntry m₂ filename r := by
  induction m₁ with
  | nil => rfl
  | cons e rest ih =>
      obtain ⟨k, v⟩ := e
      by_cases h : k = filename <;> simp [setEntry, h, ih]

lemma lookupEntry_setEntry_ne (m : FileStatusMap) (filename fn' : String) (r : FileRecord)
    (h : fn' ≠ filename) :
    lookupEntry (setEntry m filename r) fn' = lookupEntry m fn' := by
  induction m with
  | nil => rfl
  | cons e rest ih =>
      obtain ⟨k, v⟩ := e
      by_cases hk : k = filename
      · subst hk
        have hne : ¬ k = fn' := fun he => h he.symm
        rw [setEntry, if_pos rfl, lookupEntry, lookupEntry, if_neg hne, if_neg hne, ih]
      · rw [setEntry, if_neg hk, lookupEntry, lookupEntry]
        by_cases hkf : k = fn'
        · rw [if_pos hkf, if_pos hkf]
        · rw [if_neg hkf, if_neg hkf, ih]

lemma setEntry_self (m : FileStatusMap) (filename : String) (r : FileRecord)
    (hnd : (m.map Prod.fst).Nodup) (h : lookupEntry m filename = some r) :
    setEntry m filename r = m := by
  induction m with
  | nil => simp [lookupEntry] at h
  | cons e rest ih =>
      obtain ⟨k, v⟩ := e
      rw [List.map_cons, List.nodup_cons] at hnd
      rw [lookupEntry] at h
      by_cases hkf : k = filename
      · rw [if_pos hkf] at h
        obtain rfl : v = r := Option.some.inj h
        rw [setEntry, if_pos hkf,
          setEntry_of_not_mem rest filename v (hkf ▸ hnd.1)]
      · rw [if_neg hkf] at h
        rw [setEntry, if_neg hkf, ih hnd.2 h]

lemma lookupEntry_of_mem (m : FileStatusMap) (hnd : (m.map Prod.fst).Nodup)
    {e : String × FileRecord} (he : e ∈ m) : lookupEntry m e.1 = some e.2 := by
  induction m with
  | nil => cases he
  | cons e' rest ih =>
      obtain ⟨k, v⟩ := e'
      rw [List.map_cons, List.nodup_cons] at hnd
      rcases List.mem_cons.1 he with rfl | hrest
      · rw [lookupEntry, if_pos rfl]
      · by_cases hk : k = e.1
        · exfalso
          apply hnd.1
          rw [hk]
          exact List.mem_map.2 ⟨e, hrest, rfl⟩
        · rw [lookupEntry, if_neg hk]
          exact ih hnd.2 hrest

lemma eq_of_mem_keys_nodup (m : FileStatusMap) (hnd : (m.map Prod.fst).Nodup)
    {e₁ e₂ : String × FileRecord} (h₁ : e₁ ∈ m) (h₂ : e₂ ∈ m) (hk : e₁.1 = e₂.1) :
    e₁ = e₂ := by
  have l₁ := lookupEntry_of_mem m hnd h₁
  have l₂ := lookupEntry_of_mem m hnd h₂
  rw [hk] at l₁
  rw [l₁] at l₂
  exact Prod.ext hk (Option.some.inj l₂)

/-! ### Pointwise behaviour of `update_file_status` -/

lemma applyUpdate_pending (file_info : FileRecord) (now : Nat) :
    applyUpdate file_info "pending" now none none =
      { file_info with status := "pending" } := by
  simp [applyUpdate]

lemma applyUpdate_completed (file_info : FileRecord) (now a : Nat) :
    applyUpdate file_info "completed" now (some a) (some a) =
      { file_info with status := "completed", completed_at := some now,
                       actual_size := a, downloaded_size := a } := by
  simp [applyUpdate]

lemma updateFileStatus_of_lookup (m : FileStatusMap) (filename status : String)
    (now : Nat) (a d : Option Nat) (file_info : FileRecord)
    (h : lookupEntry m filename = some file_info) :
    updateFileStatus m filename status now a d =
      (true, setEntry m filename (applyUpdate file_info status now a d)) := by
  simp [updateFileStatus, h]

/-! ### The reconciliation loop decomposes into pointwise record outcomes -/

lemma reconcileStep_spec (disk : Disk) (strategy : String) (now : Nat)
    (st : ReconcileState) (filename : String) (file_info : FileRecord)
    (hnd : (st.file_status.map Prod.fst).Nodup)
    (hlk : lookupEntry st.file_status filename = some file_info) :
    reconcileStep disk strategy now st filename file_info =
      { file_status := setEntry st.file_status filename
          (reconcileRecord disk strategy now filename file_info),
        pending_files := st.pending_files ++
          (pendingOf disk strategy filename file_info).toList,
        completed_count := st.completed_count +
          completedIncrOf disk strategy filename file_info,
        moved_files := st.moved_files ++ (movedOf disk filename file_info).toList } := by
  cases hdisk : disk filename with
  | some actual_size =>
      by_cases hsz : file_info.expected_size = 0 ∨ actual_size = file_info.expected_size
      · by_cases hcs : file_info.status = "completed"
        · simp [reconcileStep, reconcileRecord, pendingOf, movedOf, completedIncrOf,
                hdisk, hsz, hcs, setEntry_self st.file_status filename file_info hnd hlk]
        · simp [reconcileStep, reconcileRecord, pendingOf, movedOf, completedIncrOf,
                hdisk, hsz, hcs, updateFileStatus_of_lookup _ _ _ _ _ _ _ hlk]
      · simp [reconcileStep, reconcileRecord, pendingOf, movedOf, completedIncrOf,
              hdisk, hsz, updateFileStatus_of_lookup _ _ _ _ _ _ _ hlk]
  | none =>
      by_cases hcs : file_info.status = "completed"
      · by_cases hstrat : strategy = "redownload"
        · simp [reconcileStep, reconcileRecord, pendingOf, movedOf, completedIncrOf,
                hdisk, hcs, hstrat, updateFileStatus_of_lookup _ _ _ _ _ _ _ hlk]
        · simp [reconcileStep, reconcileRecord, pendingOf, movedOf, completedIncrOf,
                hdisk, hcs, hstrat, setEntry_self st.file_status filename file_info hnd hlk]
      · simp [reconcileStep, reconcileRecord, pendingOf, movedOf, completedIncrOf,
              hdisk, hcs, updateFileStatus_of_lookup _ _ _ _ _ _ _ hlk]

lemma reconcileLoop_spec (disk : Disk) (strategy : String) (now : Nat) :
    ∀ (entries : List (String × FileRecord)) (st : ReconcileState),
      (entries.map Prod.fst).Nodup →
      (st.file_status.map Prod.fst).Nodup →
      (∀ e ∈ entries, lookupEntry st.file_status e.1 = some e.2) →
      reconcileLoop disk strategy now entries st =
        { file_status := entries.foldl
            (fun fs e => setEntry fs e.1 (reconcileRecord disk strategy now e.1 e.2))
            st.file_status,
          pending_files := st.pending_files ++
            entries.filterMap (fun e => pendingOf disk strategy e.1 e.2),
          completed_count := st.completed_count +
            (entries.map (fun e => completedIncrOf disk strategy e.1 e.2)).sum,
          moved_files := st.moved_files ++
            entries.filterMap (fun e => movedOf disk e.1 e.2) } := by
  intro entries
  induction entries with
  | nil => intro st _ _ _; simp [reconcileLoop]
  | cons e rest ih =>
      obtain ⟨filename, file_info⟩ := e
      intro st hke hkm hlk
      rw [List.map_cons, List.nodup_cons] at hke
      have hstep := reconcileStep_spec disk strategy now st filename file_info hkm
        (hlk _ (List.mem_cons_self _ _))
      have hnd' : (((reconcileStep disk strategy now st filename
          file_info).file_status).map Prod.fst).Nodup := by
        rw [hstep]
        simpa [setEntry_keys] using hkm
      have hlk' : ∀ e ∈ rest,
          lookupEntry (reconcileStep disk strategy now st filename
            file_info).file_status e.1 = some e.2 := by
        intro e he
        rw [hstep]
        show lookupEntry (setEntry st.file_status filename _) e.1 = some e.2
        rw [lookupEntry_setEntry_ne]
        · exact hlk e (List.mem_cons_of_mem _ he)
        · intro hf
          exact hke.1 (hf ▸ List.mem_map.2 ⟨e, he, rfl⟩)
      rw [reconcileLoop, ih _ hke.2 hnd' hlk', hstep]
      simp only [List.foldl_cons, List.filterMap_cons, List.map_cons, List.sum_cons]
      cases hp : pendingOf disk strategy filename file_info <;>
        cases hm : movedOf disk filename file_info <;>
          simp [hp, hm, Nat.add_assoc]

lemma foldl_setEntry (g : String → FileRecord → FileRecord) :
    ∀ (entries pre : FileStatusMap),
      (((pre ++ entries).map Prod.fst).Nodup) →
      entries.foldl (fun fs e => setEntry fs e.1 (g e.1 e.2)) (pre ++ entries) =
        pre ++ entries.map (fun e => (e.1, g e.1 e.2)) := by
  intro entries
  induction entries with
  | nil => intro pre _; simp
  | cons e rest ih =>
      obtain ⟨k, r⟩ := e
      intro pre hnd
      have hkpre : k ∉ pre.map Prod.fst := by
        intro h
        rw [List.map_append] at hnd
        exact (List.disjoint_of_nodup_append hnd) h (by simp)
      have hkrest : k ∉ rest.map Prod.fst := by
        rw [List.map_append, List.map_cons] at hnd
        have h2 := (List.nodup_append.1 hnd).2.1
        rw [List.nodup_cons] at h2
        exact h2.1
      rw [List.foldl_cons]
      have hset : setEntry (pre ++ (k, r) :: rest) k (g k r) =
          (pre ++ [(k, g k r)]) ++ rest := by
        rw [setEntry_append, setEntry_of_not_mem pre k _ hkpre, setEntry,
          if_pos rfl, setEntry_of_not_mem rest k _ hkrest]
        simp
      rw [hset]
      have hnd' : (((pre ++ [(k, g k r)]) ++ rest).map Prod.fst).Nodup := by
        rw [List.map_append] at hnd ⊢
        simpa using hnd
      rw [ih _ hnd']
      simp

lemma resumeReconcile_eq (disk : Disk) (strategy : String) (now : Nat)
    (m : FileStatusMap) (hnd : (m.map Prod.fst).Nodup) :
    resumeReconcile disk strategy now m =
      { file_status := m.map (fun e => (e.1, reconcileRecord disk strategy now e.1 e.2)),
        pending_files := m.filterMap (fun e => pendingOf disk strategy e.1 e.2),
        completed_count := (m.map (fun e => completedIncrOf disk strategy e.1 e.2)).sum,
        moved_files := m.filterMap (fun e => movedOf disk e.1 e.2) } := by
  rw [resumeReconcile,
    reconcileLoop_spec disk strategy now m ⟨m, [], 0, []⟩ hnd hnd
      (fun e he => lookupEntry_of_mem m hnd he)]
  have hf := foldl_setEntry (fun fn fi => reconcileRecord disk strategy now fn fi)
    m [] (by simpa using hnd)
  simp only [List.nil_append] at hf
  simp [hf]

/-! ### Fields preserved by reconciliation -/

lemma applyUpdate_url (file_info : FileRecord) (status : String) (now : Nat)
    (a d : Option Nat) : (applyUpdate file_info status now a d).url = file_info.url := by
  cases a <;> cases d <;> simp only [applyUpdate] <;> split_ifs <;> rfl

lemma applyUpdate_expected_size (file_info : FileRecord) (status : String) (now : Nat)
    (a d : Option Nat) :
    (applyUpdate file_info status now a d).expected_size = file_info.expected_size := by
  cases a <;> cases d <;> simp only [applyUpdate] <;> split_ifs <;> rfl

lemma applyUpdate_status (file_info : FileRecord) (status : String) (now : Nat)
    (a d : Option Nat) : (applyUpdate file_info status now a d).status = status := by
  cases a <;> cases d <;> simp only [applyUpdate] <;> split_ifs <;> rfl

lemma reconcileRecord_url (disk : Disk) (strategy : String) (now : Nat)
    (filename : String) (file_info : FileRecord) :
    (reconcileRecord disk strategy now filename file_info).url = file_info.url := by
  cases hdisk : disk filename <;>
    simp only [reconcileRecord, hdisk] <;> split_ifs <;>
      simp [applyUpdate_url]

lemma reconcileRecord_expected_size (disk : Disk) (strategy : String) (now : Nat)
    (filename : String) (file_info : FileRecord) :
    (reconcileRecord disk strategy now filename file_info).expected_size =
      file_info.expected_size := by
  cases hdisk : disk filename <;>
    simp only [reconcileRecord, hdisk] <;> split_ifs <;>
      simp [applyUpdate_expected_size]

lemma pendingOf_filename {disk : Disk} {strategy filename : String}
    {file_info : FileRecord} {p : PendingFile}
    (h : pendingOf disk strategy filename file_info = some p) : p.filename = filename := by
  rcases hdisk : disk filename with _ | a <;>
    simp only [pendingOf, hdisk] at h <;>
      split_ifs at h <;>
        exact (Option.some.inj h) ▸ rfl

/-- Reconciling an already-reconciled record yields the same pending-work
decision and the same pending entry: the core of idempotence. -/
lemma pendingOf_reconcileRecord (disk : Disk) (strategy : String) (now : Nat)
    (filename : String) (file_info : FileRecord) :
    pendingOf disk strategy filename
        (reconcileRecord disk strategy now filename file_info) =
      pendingOf disk strategy filename file_info := by
  cases hdisk : disk filename with
  | some a =>
      simp [pendingOf, hdisk, reconcileRecord_expected_size, reconcileRecord_url]
  | none =>
      by_cases hcs : file_info.status = "completed"
      · by_cases hstrat : strategy = "redownload"
        · simp [pendingOf, hdisk, reconcileRecord, hcs, hstrat, applyUpdate_pending]
        · simp [pendingOf, hdisk, reconcileRecord, hcs, hstrat]
      · simp [pendingOf, hdisk, reconcileRecord, hcs, applyUpdate_pending]

/-- Mapping the pointwise reconciliation outcome over the store does not
change any record's pending-work contribution. -/
lemma filterMap_pendingOf_map (disk : Disk) (strategy : String) (now : Nat) :
    ∀ m : FileStatusMap,
      ((m.map (fun e => (e.1, reconcileRecord disk strategy now e.1 e.2))).filterMap
          (fun e => pendingOf disk strategy e.1 e.2)) =
        m.filterMap (fun e => pendingOf disk strategy e.1 e.2) := by
  intro m
  induction m with
  | nil => rfl
  | cons e rest ih =>
      obtain ⟨filename, file_info⟩ := e
      simp only [List.map_cons, List.filterMap_cons, pendingOf_reconcileRecord, ih]

/-! ### The claims about the state store and reconciler -/

/-- C2: a tracked file whose status is `completed` but which is absent from
the download directory: under the `skip` policy (the default) its record is
left unchanged — the status remains `completed` — it contributes no
pending-work entry, and it is counted in the `moved_files` report; under
the `redownload` policy its status becomes `pending` and it enters the
pending-work list. -/
theorem moved_file_policies (disk : Disk) (now : Nat) (m : FileStatusMap)
    (filename : String) (r : FileRecord)
    (hnd : (m.map Prod.fst).Nodup) (hmem : (filename, r) ∈ m)
    (hdisk : disk filename = none) (hst : r.status = "completed") :
    ((filename, r) ∈ (resumeReconcile disk "skip" now m).file_status ∧
     (∀ p ∈ (resumeReconcile disk "skip" now m).pending_files, p.filename ≠ filename) ∧
     (⟨filename, r.url, r.expected_size, r.completed_at, r.actual_size⟩ : MovedFile) ∈
       (resumeReconcile disk "skip" now m).moved_files) ∧
    ((filename, { r with status := "pending" }) ∈
       (resumeReconcile disk "redownload" now m).file_status ∧
     (⟨filename, r.url, r.expected_size⟩ : PendingFile) ∈
       (resumeReconcile disk "redownload" now m).pending_files) := by
  have hrecSkip : reconcileRecord disk "skip" now filename r = r := by
    simp [reconcileRecord, hdisk, hst]
  have hrecRe : reconcileRecord disk "redownload" now filename r =
      { r with status := "pending" } := by
    simp [reconcileRecord, hdisk, hst, applyUpdate_pending]
  refine ⟨⟨?_, ?_, ?_⟩, ?_, ?_⟩
  · rw [resumeReconcile_eq disk "skip" now m hnd]
    exact List.mem_map.2 ⟨(filename, r), hmem, by simp [hrecSkip]⟩
  · rw [resumeReconcile_eq disk "skip" now m hnd]
    intro p hp hpf
    obtain ⟨e, he, hpe⟩ := List.mem_filterMap.1 hp
    have hef : e.1 = filename := by
      rw [← pendingOf_filename hpe]
      exact hpf
    have heq : e = (filename, r) := eq_of_mem_keys_nodup m hnd he hmem hef
    rw [heq] at hpe
    simp [pendingOf, hdisk, hst] at hpe
  · rw [resumeReconcile_eq disk "skip" now m hnd]
    refine List.mem_filterMap.2 ⟨(filename, r), hmem, ?_⟩
    simp [movedOf, hdisk, hst]
  · rw [resumeReconcile_eq disk "redownload" now m hnd]
    exact List.mem_map.2 ⟨(filename, r), hmem, by simp [hrecRe]⟩
  · rw [resumeReconcile_eq disk "redownload" now m hnd]
    refine List.mem_filterMap.2 ⟨(filename, r), hmem, ?_⟩
    simp [pendingOf, hdisk, hst]

/-- Witness for C2: a one-file store whose completed file is gone from disk,
reconciled under the `redownload` policy. -/
theorem moved_file_policies_witness :
    movedDemoRecord.status = "completed" ∧
    (("gone.bin", { movedDemoRecord with status := "pending" }) ∈
      (resumeReconcile (fun _ => none) "redownload" 3
        [("gone.bin", movedDemoRecord)]).file_status ∧
     (⟨"gone.bin", movedDemoRecord.url, movedDemoRecord.expected_size⟩ : PendingFile) ∈
      (resumeReconcile (fun _ => none) "redownload" 3
        [("gone.bin", movedDemoRecord)]).pending_files) :=
  ⟨rfl, (moved_file_policies (fun _ => none) 3 [("gone.bin", movedDemoRecord)]
    "gone.bin" movedDemoRecord (by decide) (by simp) rfl rfl).2⟩

/-- C3: reconciliation is idempotent — for a fixed filesystem and policy,
reconciling the store a second time (at any later tick) produces the same
pending-work list as the first run. -/
theorem reconcile_idempotent (disk : Disk) (strategy : String) (now₁ now₂ : Nat)
    (m : FileStatusMap) (hnd : (m.map Prod.fst).Nodup) :
    (resumeReconcile disk strategy now₂
        (resumeReconcile disk strategy now₁ m).file_status).pending_files =
      (resumeReconcile disk strategy now₁ m).pending_files := by
  rw [resumeReconcile_eq disk strategy now₁ m hnd]
  have hnd' : ((m.map (fun e =>
      (e.1, reconcileRecord disk strategy now₁ e.1 e.2))).map Prod.fst).Nodup := by
    rw [List.map_map]
    exact hnd
  rw [resumeReconcile_eq disk strategy now₂ _ hnd']
  exact filterMap_pendingOf_map disk strategy now₁ m

/-- Witness for C3: a two-file store (one truncated on disk, one missing)
reconciled twice under the default policy. -/
theorem reconcile_idempotent_witness :
    ((([("part.bin", partialRecord), ("todo.bin", missingPendingRecord)] :
        FileStatusMap).map Prod.fst).Nodup) ∧
    (resumeReconcile partialDisk "skip" 2
        (resumeReconcile partialDisk "skip" 1
          [("part.bin", partialRecord), ("todo.bin", missingPendingRecord)]).file_status
      ).pending_files =
      (resumeReconcile partialDisk "skip" 1
        [("part.bin", partialRecord), ("todo.bin", missingPendingRecord)]).pending_files :=
  ⟨by decide, reconcile_idempotent partialDisk "skip" 1 2
    [("part.bin", partialRecord), ("todo.bin", missingPendingRecord)] (by decide)⟩

/-- Counterexample for C6: a file present on disk whose actual size equals
`expected_size` but whose record is already `completed` is left untouched,
so the on-disk size (100) is NOT recorded — `actual_size` stays 0 —
contradicting the claim's "marked completed with the actual size
recorded". -/
theorem size_mismatch_requeue_counterexample :
    staleDisk "f.bin" = some 100 ∧
    staleCompletedRecord.expected_size = 100 ∧
    staleCompletedRecord.status = "completed" ∧
    (lookupEntry (resumeReconcile staleDisk "skip" 1
        [("f.bin", staleCompletedRecord)]).file_status "f.bin").map
      FileRecord.actual_size = some 0 := by
  refine ⟨rfl, rfl, rfl, ?_⟩
  decide

/-- C6 (amended): for a tracked file present on disk at reconcile time: if
`expected_size > 0` and the actual size differs, the record is requeued as
`pending` (with `expected_size` preserved) and joins the pending-work list
with its expected size; if the actual size matches or `expected_size = 0`,
the record ends `completed` — the actual size being recorded when the
record was not already `completed`, while an already-`completed` record is
left unchanged (its previously stored `actual_size` is not refreshed). -/
theorem size_mismatch_requeue (disk : Disk) (strategy : String) (now : Nat)
    (m : FileStatusMap) (filename : String) (r : FileRecord) (a : Nat)
    (hnd : (m.map Prod.fst).Nodup) (hmem : (filename, r) ∈ m)
    (hdisk : disk filename = some a) :
    (0 < r.expected_size → a ≠ r.expected_size →
      ((filename, { r with status := "pending" }) ∈
          (resumeReconcile disk strategy now m).file_status ∧
        (⟨filename, r.url, r.expected_size⟩ : PendingFile) ∈
          (resumeReconcile disk strategy now m).pending_files)) ∧
    ((r.expected_size = 0 ∨ a = r.expected_size) →
      ∃ r', (filename, r') ∈ (resumeReconcile disk strategy now m).file_status ∧
        r'.status = "completed" ∧ r'.expected_size = r.expected_size ∧
        (r.status ≠ "completed" → r'.actual_size = a) ∧
        (r.status = "completed" → r' = r)) := by
  rw [resumeReconcile_eq disk strategy now m hnd]
  constructor
  · intro hpos hne
    have hcond : ¬ (r.expected_size = 0 ∨ a = r.expected_size) := by omega
    have hrec : reconcileRecord disk strategy now filename r =
        { r with status := "pending" } := by
      simp [reconcileRecord, hdisk, hcond, applyUpdate_pending]
    constructor
    · exact List.mem_map.2 ⟨(filename, r), hmem, by simp [hrec]⟩
    · refine List.mem_filterMap.2 ⟨(filename, r), hmem, ?_⟩
      simp [pendingOf, hdisk, hcond]
  · intro hok
    by_cases hcs : r.status = "completed"
    · refine ⟨r, ?_, hcs, rfl, fun h => absurd hcs h, fun _ => rfl⟩
      have hrec : reconcileRecord disk strategy now filename r = r := by
        simp [reconcileRecord, hdisk, hok, hcs]
      exact List.mem_map.2 ⟨(filename, r), hmem, by simp [hrec]⟩
    · have hrec : reconcileRecord disk strategy now filename r =
          { r with status := "completed", completed_at := some now,
                   actual_size := a, downloaded_size := a } := by
        simp [reconcileRecord, hdisk, hok, hcs, applyUpdate_completed]
      refine ⟨reconcileRecord disk strategy now filename r, ?_, ?_, ?_, ?_, ?_⟩
      · exact List.mem_map.2 ⟨(filename, r), hmem, by simp⟩
      · rw [hrec]
      · rw [hrec]
      · intro _
        rw [hrec]
      · intro h
        exact absurd h hcs

/-- Witness for C6 (amended): the spec's instance — a file present with 50
bytes against an expected 100 is requeued as `pending` with the expected
size preserved. -/
theorem size_mismatch_requeue_witness :
    0 < partialRecord.expected_size ∧ (50 : Nat) ≠ partialRecord.expected_size ∧
    (("part.bin", { partialRecord with status := "pending" }) ∈
        (resumeReconcile partialDisk "skip" 7 [("part.bin", partialRecord)]).file_status ∧
      (⟨"part.bin", partialRecord.url, partialRecord.expected_size⟩ : PendingFile) ∈
        (resumeReconcile partialDisk "skip" 7 [("part.bin", partialRecord)]).pending_files) :=
  ⟨by decide, by decide,
    (size_mismatch_requeue partialDisk "skip" 7 [("part.bin", partialRecord)]
      "part.bin" partialRecord 50 (by decide) (by simp) rfl).1 (by decide) (by decide)⟩

/-- C8: updating the status of an identity that is not tracked is a no-op
returning failure — `update_file_status` returns `False` and the state map
is unchanged (no entry created or modified). -/
theorem update_unknown_identity_noop (m : FileStatusMap) (filename status : String)
    (now : Nat) (actual_size downloaded_size : Option Nat)
    (h : lookupEntry m filename = none) :
    updateFileStatus m filename status now actual_size downloaded_size = (false, m) := by
  simp [updateFileStatus, h]

/-- Witness for C8: updating a filename missing from a one-entry store. -/
theorem update_unknown_identity_noop_witness :
    lookupEntry [("a.bin", movedDemoRecord)] "missing.bin" = none ∧
    updateFileStatus [("a.bin", movedDemoRecord)] "missing.bin" "completed" 5 none none =
      (false, [("a.bin", movedDemoRecord)]) :=
  ⟨by decide, update_unknown_identity_noop _ _ _ _ _ _ (by decide)⟩

/-- C10: invoking batch execution on a multi-batch plan with a starting
batch number strictly past the plan's total returns success immediately
with an empty action trace — no capacity check, no tracker creation, no
batch-progress write and no download delegation. -/
theorem continue_past_last_batch (env : ExecEnv) (task_id : String) (plan : Plan)
    (auto_proceed : Bool) (current_batch : Nat)
    (hstrat : plan.strategy = "multi_batch")
    (hpast : current_batch > plan.total_batches) :
    executeBatchDownload env task_id plan auto_proceed current_batch = (true, []) := by
  rw [executeBatchDownload]
  rw [if_neg (by rw [hstrat]; simp), if_pos hpast]

/-- Witness for C10: continuing a two-batch plan at batch 3. -/
theorem continue_past_last_batch_witness :
    demoPlan.strategy = "multi_batch" ∧ 3 > demoPlan.total_batches ∧
    executeBatchDownload ⟨true, fun _ => false, fun _ => true⟩ "task1" demoPlan false 3 =
      (true, []) :=
  ⟨rfl, by decide,
    continue_past_last_batch ⟨true, fun _ => false, fun _ => true⟩ "task1" demoPlan
      false 3 rfl (by decide)⟩

end DatasetManage
